import Mathlib

/-!
Shallow embedding of the DeepLearn learning-site repository (TypeScript,
Netlify edge/serverless functions + React client) for checking its
natural-language specification.

Strings are modelled as `List Char`; JavaScript string operations
(`trim`, `slice`, regex replaces, `JSON.parse`, `atob`) are embedded as
executable Lean functions over `List Char`, faithful to the source code in
`netlify/edge-functions/lib/shared.ts`, `netlify/edge-functions/feed-generate.ts`,
`netlify/edge-functions/home-tweets.ts`, `netlify/edge-functions/thread-get.ts`,
the thread-ask edge handler, and the client `src/lib/api.ts`.
-/

namespace DeepLearn

open scoped List

/-! ### Character classes -/

/-- ASCII control characters: the range `\x00`-`\x1f` plus `\x7f`, exactly the
character class `[\x00-\x1f\x7f]` used by `sanitizeForPrompt` and `sanitizeForDb`. -/
def isCtlChar (c : Char) : Bool :=
  c.val ≤ 0x1f || c.val == 0x7f

/-- JavaScript whitespace, the set matched by the regex class `\s` and removed by
`String.prototype.trim`: space, tab, LF, VT, FF, CR, NBSP, and the Unicode
space separators, line/paragraph separators and BOM. -/
def isJsWsChar (c : Char) : Bool :=
  c == ' ' || c == '\t' || c == '\n' || c.val == 0x0b || c.val == 0x0c || c == '\r' ||
  c.val == 0xa0 || c.val == 0x1680 ||
  (0x2000 ≤ c.val && c.val ≤ 0x200a) ||
  c.val == 0x2028 || c.val == 0x2029 || c.val == 0x202f || c.val == 0x205f ||
  c.val == 0x3000 || c.val == 0xfeff

/-- JSON whitespace accepted by `JSON.parse` between tokens: space, tab, LF, CR. -/
def isJsonWsChar (c : Char) : Bool :=
  c == ' ' || c == '\t' || c == '\n' || c == '\r'

/-! ### JavaScript string primitives -/

/-- JavaScript `String.prototype.trim`: drop JS whitespace from both ends. -/
def jsTrim (cs : List Char) : List Char :=
  ((cs.dropWhile isJsWsChar).reverse.dropWhile isJsWsChar).reverse

/-- Replace `\r\n`, lone `\r`, and lone `\n` with a single space: the regex
`str.replace(/\r\n|\r|\n/g, " ")` in `sanitizeForPrompt`. -/
def newlinesToSpace : List Char → List Char
  | [] => []
  | '\r' :: '\n' :: rest => ' ' :: newlinesToSpace rest
  | '\r' :: rest => ' ' :: newlinesToSpace rest
  | '\n' :: rest => ' ' :: newlinesToSpace rest
  | c :: rest => c :: newlinesToSpace rest

/-- Delete ASCII control characters: `replace(/[\x00-\x1f\x7f]/g, "")`. -/
def stripCtl (cs : List Char) : List Char :=
  cs.filter (fun c => !isCtlChar c)

/-- Replace each ASCII control character with a space:
`replace(/[\x00-\x1f\x7f]/g, " ")` in `sanitizeForDb`. -/
def ctlToSpace (cs : List Char) : List Char :=
  cs.map (fun c => if isCtlChar c then ' ' else c)

/-- Worker for `squashWs`: the flag records whether we are inside a whitespace
run whose single replacement space has already been emitted. -/
def squashWsAux : Bool → List Char → List Char
  | _, [] => []
  | inRun, c :: rest =>
    if isJsWsChar c then
      if inRun then squashWsAux true rest else ' ' :: squashWsAux true rest
    else c :: squashWsAux false rest

/-- Collapse every maximal run of JS whitespace to one space:
`replace(/\s+/g, " ")`. -/
def squashWs (cs : List Char) : List Char :=
  squashWsAux false cs

/-- `sanitizeForPrompt(str, maxLen)` from `netlify/edge-functions/lib/shared.ts`:
newlines to spaces, control characters deleted, whitespace runs collapsed,
trimmed, then `slice(0, maxLen)`; empty when `maxLen < 1`. -/
def sanitizeForPrompt (cs : List Char) (maxLen : Nat) : List Char :=
  if maxLen < 1 then []
  else (jsTrim (squashWs (stripCtl (newlinesToSpace cs)))).take maxLen

/-- `sanitizeForDb(str, maxLen)` from `netlify/edge-functions/lib/shared.ts`:
control characters replaced by spaces, whitespace runs collapsed, trimmed,
then `slice(0, maxLen)`; empty when `maxLen < 1`. -/
def sanitizeForDb (cs : List Char) (maxLen : Nat) : List Char :=
  if maxLen < 1 then []
  else (jsTrim (squashWs (ctlToSpace cs))).take maxLen

/-! ### Lemmas about the sanitizers -/

/-- Every character that `squashWsAux` emits is a character of the input or a space. -/
theorem mem_squashWsAux {c : Char} :
    ∀ {b : Bool} {l : List Char}, c ∈ squashWsAux b l → c ∈ l ∨ c = ' '
  | _, [], h => by simp [squashWsAux] at h
  | b, x :: rest, h => by
    rw [squashWsAux] at h
    by_cases hx : isJsWsChar x = true
    · simp only [hx, if_pos] at h
      cases b with
      | true =>
        simp only [if_pos] at h
        rcases mem_squashWsAux h with h3 | h4
        · exact Or.inl (List.mem_cons_of_mem _ h3)
        · exact Or.inr h4
      | false =>
        simp only [Bool.false_eq_true, if_neg, not_false_iff] at h
        rcases List.mem_cons.mp h with h1 | h2
        · exact Or.inr h1
        · rcases mem_squashWsAux h2 with h3 | h4
          · exact Or.inl (List.mem_cons_of_mem _ h3)
          · exact Or.inr h4
    · simp only [hx, if_neg, Bool.false_eq_true, not_false_iff] at h
      rcases List.mem_cons.mp h with h1 | h2
      · exact Or.inl (h1 ▸ List.mem_cons_self _ _)
      · rcases mem_squashWsAux h2 with h3 | h4
        · exact Or.inl (List.mem_cons_of_mem _ h3)
        · exact Or.inr h4

/-- Every character that `squashWs` emits is a character of the input or a space. -/
theorem mem_squashWs {c : Char} {l : List Char} (h : c ∈ squashWs l) : c ∈ l ∨ c = ' ' :=
  mem_squashWsAux h

/-- Characters surviving `jsTrim` are characters of the input. -/
theorem mem_of_mem_jsTrim {c : Char} {l : List Char} (h : c ∈ jsTrim l) : c ∈ l := by
  unfold jsTrim at h
  rw [List.mem_reverse] at h
  have h1 := (List.dropWhile_sublist isJsWsChar).subset h
  rw [List.mem_reverse] at h1
  exact (List.dropWhile_sublist isJsWsChar).subset h1

/-- Characters emitted by `stripCtl` are non-control. -/
theorem not_ctl_of_mem_stripCtl {c : Char} {l : List Char} (h : c ∈ stripCtl l) :
    isCtlChar c = false := by
  unfold stripCtl at h
  have := (List.mem_filter.mp h).2
  simpa using this

/-- Claim C5. For every input string and bound, `sanitizeForPrompt` emits no ASCII
control character (in particular no newline or carriage return), and its output
length is at most `maxLen`. The function is total by construction. -/
theorem sanitizeForPrompt_safe (cs : List Char) (maxLen : Nat) :
    (∀ c ∈ sanitizeForPrompt cs maxLen, isCtlChar c = false ∧ c ≠ '\n' ∧ c ≠ '\r') ∧
    (sanitizeForPrompt cs maxLen).length ≤ maxLen := by
  constructor
  · intro c hc
    unfold sanitizeForPrompt at hc
    split at hc
    · simp at hc
    · have h1 : c ∈ jsTrim (squashWs (stripCtl (newlinesToSpace cs))) :=
        (List.take_sublist _ _).subset hc
      have h2 := mem_of_mem_jsTrim h1
      have h3 : isCtlChar c = false := by
        rcases mem_squashWs h2 with h4 | h5
        · exact not_ctl_of_mem_stripCtl h4
        · subst h5; decide
      refine ⟨h3, ?_, ?_⟩
      · intro hn; subst hn; simp [isCtlChar] at h3
      · intro hn; subst hn; simp [isCtlChar] at h3
  · unfold sanitizeForPrompt
    split
    · simp
    · exact List.length_take_le _ _

/-- Witness for C5 at a concrete input. -/
theorem sanitizeForPrompt_safe_witness :
    (isCtlChar 'a' = false ∧ 'a' ≠ '\n' ∧ 'a' ≠ '\r') ∧
    (sanitizeForPrompt "a\nb".data 5).length ≤ 5 :=
  ⟨(sanitizeForPrompt_safe "a\nb".data 5).1 'a' (by decide),
   (sanitizeForPrompt_safe "a\nb".data 5).2⟩

/-- Counterexample to claim C6 as stated: the input `"a  b"` consists only of
non-control characters, and the claim asserts the output equals the input
trimmed and truncated with internal whitespace unchanged; but `sanitizeForDb`
collapses the double space, so the output differs from `(jsTrim input).take 10`. -/
theorem sanitizeForDb_not_ws_preserving :
    ("a  b".data.all (fun c => !isCtlChar c)) = true ∧
    sanitizeForDb "a  b".data 10 = "a b".data ∧
    sanitizeForDb "a  b".data 10 ≠ (jsTrim "a  b".data).take 10 := by
  decide

/-- Replacing control characters is the identity on control-free strings. -/
theorem ctlToSpace_of_clean : ∀ {cs : List Char}, (∀ c ∈ cs, isCtlChar c = false) →
    ctlToSpace cs = cs
  | [], _ => rfl
  | c :: rest, h => by
    unfold ctlToSpace
    simp only [List.map_cons, List.map_map]
    rw [h c (List.mem_cons_self _ _)]
    have ih := ctlToSpace_of_clean (fun x hx => h x (List.mem_cons_of_mem _ hx))
    unfold ctlToSpace at ih
    simp only [ih]
    simp

/-- Amended claim C6: `sanitizeForDb` replaces each control character with a
space, collapses each whitespace run to a single space, trims, and truncates to
`maxLen`; hence for every all-non-control input the output is the input with
whitespace runs collapsed, trimmed and truncated (not with its internal
whitespace unchanged). -/
theorem sanitizeForDb_clean_input (cs : List Char) (maxLen : Nat)
    (h : ∀ c ∈ cs, isCtlChar c = false) :
    sanitizeForDb cs maxLen = (jsTrim (squashWs cs)).take maxLen := by
  unfold sanitizeForDb
  rw [ctlToSpace_of_clean h]
  split
  · rename_i hlt
    interval_cases maxLen
    simp
  · rfl

/-- Witness for the amended C6 at a concrete input. -/
theorem sanitizeForDb_clean_input_witness :
    sanitizeForDb "ab cd".data 10 = (jsTrim (squashWs "ab cd".data)).take 10 :=
  sanitizeForDb_clean_input "ab cd".data 10 (by decide)

/-! ### JSON values and a model of `JSON.parse`

`JSON.parse` is the strict RFC 8259 parser built into the JavaScript runtime:
no trailing commas, no comments, `0`-prefixed integers rejected, raw control
characters inside strings rejected.  Numbers are kept as their source lexeme
(the claims never compare numeric values, only structures and strings). -/

/-- A parsed JSON value. -/
inductive Json where
  | null
  | bool (b : Bool)
  | num (lexeme : List Char)
  | str (s : List Char)
  | arr (elems : List Json)
  | obj (members : List (List Char × Json))

/-- Value of one hexadecimal digit, if the character is one. -/
def hexDigitVal (c : Char) : Option Nat :=
  if '0' ≤ c ∧ c ≤ '9' then some (c.toNat - '0'.toNat)
  else if 'a' ≤ c ∧ c ≤ 'f' then some (c.toNat - 'a'.toNat + 10)
  else if 'A' ≤ c ∧ c ≤ 'F' then some (c.toNat - 'A'.toNat + 10)
  else none

/-- Single-character JSON string escapes (`\"`, `\\`, `\/`, `\b`, `\f`, `\n`, `\r`, `\t`). -/
def jsonEscapeChar (c : Char) : Option Char :=
  if c = '"' then some '"'
  else if c = '\\' then some '\\'
  else if c = '/' then some '/'
  else if c = 'b' then some (Char.ofNat 0x08)
  else if c = 'f' then some (Char.ofNat 0x0c)
  else if c = 'n' then some '\n'
  else if c = 'r' then some '\r'
  else if c = 't' then some '\t'
  else none

/-- Decimal digit test. -/
def isDigitChar (c : Char) : Bool := '0' ≤ c && c ≤ '9'

/-- Parse the body of a JSON string after its opening quote; yields the decoded
content and the remainder after the closing quote.  Raw characters below
`0x20` are rejected, as `JSON.parse` rejects them. -/
def parseJsonStrBody : List Char → Option (List Char × List Char)
  | [] => none
  | '"' :: rest => some ([], rest)
  | '\\' :: 'u' :: a :: b :: c :: d :: rest => do
    let va ← hexDigitVal a
    let vb ← hexDigitVal b
    let vc ← hexDigitVal c
    let vd ← hexDigitVal d
    let (s, r) ← parseJsonStrBody rest
    return (Char.ofNat (((va * 16 + vb) * 16 + vc) * 16 + vd) :: s, r)
  | '\\' :: e :: rest => do
    let ch ← jsonEscapeChar e
    let (s, r) ← parseJsonStrBody rest
    return (ch :: s, r)
  | c :: rest =>
    if c.val < 0x20 then none
    else do
      let (s, r) ← parseJsonStrBody rest
      return (c :: s, r)

/-- Parse a JSON number lexeme (strict grammar: `-? (0 | [1-9][0-9]*) (\.[0-9]+)?
([eE][+-]?[0-9]+)?`); yields the lexeme and the remainder. -/
def parseJsonNumLexeme (cs : List Char) : Option (List Char × List Char) :=
  let (sign, cs1) : List Char × List Char :=
    match cs with
    | '-' :: r => (['-'], r)
    | _ => ([], cs)
  let intPart : Option (List Char × List Char) :=
    match cs1 with
    | '0' :: r => some (['0'], r)
    | c :: _ =>
      if isDigitChar c then
        some (cs1.takeWhile isDigitChar, cs1.dropWhile isDigitChar)
      else none
    | [] => none
  match intPart with
  | none => none
  | some (ds, cs2) =>
    let fracPart : Option (List Char × List Char) :=
      match cs2 with
      | '.' :: r =>
        let fd := r.takeWhile isDigitChar
        if fd = [] then none else some ('.' :: fd, r.dropWhile isDigitChar)
      | _ => some ([], cs2)
    match fracPart with
    | none => none
    | some (fs, cs3) =>
      let expPart : Option (List Char × List Char) :=
        match cs3 with
        | 'e' :: r | 'E' :: r =>
          let (sgn, r1) : List Char × List Char :=
            match r with
            | '+' :: r2 => (['+'], r2)
            | '-' :: r2 => (['-'], r2)
            | _ => ([], r)
          let ed := r1.takeWhile isDigitChar
          if ed = [] then none
          else some (cs3.head! :: sgn ++ ed, r1.dropWhile isDigitChar)
        | _ => some ([], cs3)
      match expPart with
      | none => none
      | some (es, cs4) => some (sign ++ ds ++ fs ++ es, cs4)

mutual

/-- Parse one JSON value (leading whitespace allowed); yields the value and the
unconsumed remainder.  Structural on `fuel`. -/
def parseJsonValue : Nat → List Char → Option (Json × List Char)
  | 0, _ => none
  | fuel + 1, cs =>
    match cs.dropWhile isJsonWsChar with
    | 'n' :: 'u' :: 'l' :: 'l' :: r => some (.null, r)
    | 't' :: 'r' :: 'u' :: 'e' :: r => some (.bool true, r)
    | 'f' :: 'a' :: 'l' :: 's' :: 'e' :: r => some (.bool false, r)
    | '"' :: r => do
      let (s, r2) ← parseJsonStrBody r
      return (.str s, r2)
    | '[' :: r => parseJsonArrayTail fuel r
    | '{' :: r => parseJsonObjTail fuel r
    | c :: r =>
      if c = '-' ∨ isDigitChar c then do
        let (lex, r2) ← parseJsonNumLexeme (c :: r)
        return (.num lex, r2)
      else none
    | [] => none

/-- Parse an array after its `[`: either an immediate `]` or one-or-more
comma-separated elements ending in `]` (no trailing comma). -/
def parseJsonArrayTail : Nat → List Char → Option (Json × List Char)
  | 0, _ => none
  | fuel + 1, cs =>
    match cs.dropWhile isJsonWsChar with
    | ']' :: r => some (.arr [], r)
    | other => do
      let (es, r) ← parseJsonElems fuel other
      return (.arr es, r)

/-- One-or-more comma-separated array elements, consuming the closing `]`. -/
def parseJsonElems : Nat → List Char → Option (List Json × List Char)
  | 0, _ => none
  | fuel + 1, cs => do
    let (v, r) ← parseJsonValue fuel cs
    match r.dropWhile isJsonWsChar with
    | ',' :: r2 => do
      let (vs, r3) ← parseJsonElems fuel r2
      return (v :: vs, r3)
    | ']' :: r2 => return ([v], r2)
    | _ => none

/-- Parse an object after its `{`: either an immediate `}` or one-or-more
comma-separated members ending in `}` (no trailing comma). -/
def parseJsonObjTail : Nat → List Char → Option (Json × List Char)
  | 0, _ => none
  | fuel + 1, cs =>
    match cs.dropWhile isJsonWsChar with
    | '}' :: r => some (.obj [], r)
    | other => do
      let (ms, r) ← parseJsonMembers fuel other
      return (.obj ms, r)

/-- One-or-more comma-separated `"key": value` members, consuming the closing `}`. -/
def parseJsonMembers : Nat → List Char → Option (List (List Char × Json) × List Char)
  | 0, _ => none
  | fuel + 1, cs =>
    match cs.dropWhile isJsonWsChar with
    | '"' :: r => do
      let (key, r1) ← parseJsonStrBody r
      match r1.dropWhile isJsonWsChar with
      | ':' :: r2 => do
        let (v, r3) ← parseJsonValue fuel r2
        match r3.dropWhile isJsonWsChar with
        | ',' :: r4 => do
          let (ms, r5) ← parseJsonMembers fuel r4
          return ((key, v) :: ms, r5)
        | '}' :: r4 => return ([(key, v)], r4)
        | _ => none
      | _ => none
    | _ => none

end

/-- Model of `JSON.parse(s)`: parse one value, then require only whitespace to
remain; `none` models a thrown `SyntaxError`. -/
def parseJson (cs : List Char) : Option Json :=
  match parseJsonValue (2 * cs.length + 4) cs with
  | some (v, rest) => if rest.dropWhile isJsonWsChar = [] then some v else none
  | none => none

/-! ### The Response Recovery Parser

Embeds `extractAndParse` from `netlify/edge-functions/feed-generate.ts` and
`parseTweets` from `netlify/edge-functions/home-tweets.ts`. -/

/-- Worker for `commaClean`, one character at a time.  The state `some ws`
records that a comma followed by the whitespace run `ws` (reversed) has been
read and may yet form a match of `,(\s*[}\]])`; `none` means no pending comma. -/
def commaCleanAux : Option (List Char) → List Char → List Char
  | none, [] => []
  | some ws, [] => ',' :: ws.reverse
  | none, c :: rest =>
    if c = ',' then commaCleanAux (some []) rest
    else c :: commaCleanAux none rest
  | some ws, c :: rest =>
    if c = '}' ∨ c = ']' then ws.reverse ++ c :: commaCleanAux none rest
    else if c = ',' then ',' :: ws.reverse ++ commaCleanAux (some []) rest
    else if isJsWsChar c then commaCleanAux (some (c :: ws)) rest
    else ',' :: ws.reverse ++ c :: commaCleanAux none rest

/-- The trailing-comma cleanup `replace(/,(\s*[}\]])/g, "$1")`: drop every comma
that is followed (across whitespace) by a closing brace or bracket. -/
def commaClean (cs : List Char) : List Char :=
  commaCleanAux none cs

/-- ASCII-case-insensitive comparison of one character against a lowercase letter. -/
def lowerIs (c d : Char) : Bool := c.toLower = d

/-- Strip a leading code fence: `replace(/^```(?:json)?\s*\n?/i, "")`. -/
def stripLeadFence (cs : List Char) : List Char :=
  match cs with
  | '`' :: '`' :: '`' :: rest =>
    let rest2 : List Char :=
      match rest with
      | a :: b :: c :: d :: r2 =>
        if lowerIs a 'j' && lowerIs b 's' && lowerIs c 'o' && lowerIs d 'n' then r2 else rest
      | _ => rest
    rest2.dropWhile isJsWsChar
  | _ => cs

/-- Strip a trailing code fence: `replace(/\n?\s*```\s*$/i, "")`. -/
def stripTrailFence (cs : List Char) : List Char :=
  match cs.reverse.dropWhile isJsWsChar with
  | '`' :: '`' :: '`' :: rest => (rest.dropWhile isJsWsChar).reverse
  | _ => cs

/-- Index of the first occurrence of `c`, as `String.prototype.indexOf` (with
`none` for `-1`). -/
def firstIdxOf (c : Char) : List Char → Option Nat
  | [] => none
  | x :: xs => if x = c then some 0 else (firstIdxOf c xs).map (· + 1)

/-- Index of the last occurrence of `c`, as `String.prototype.lastIndexOf`. -/
def lastIdxOf (c : Char) (cs : List Char) : Option Nat :=
  (firstIdxOf c cs.reverse).map (fun k => cs.length - 1 - k)

/-- Cleanup steps shared verbatim by both recovery parsers before delimiter
slicing: trim, strip leading and trailing fences, trim. -/
def fenceCleaned (rawText : List Char) : List Char :=
  jsTrim (stripTrailFence (stripLeadFence (jsTrim rawText)))

/-- Common cleanup of both recovery parsers: trim, strip fences, trim, slice to
the outermost `first`/`last` delimiter pair when present, then one
trailing-comma cleanup pass. -/
def recoveryCleaned (lo hi : Char) (rawText : List Char) : List Char :=
  let cleaned1 := fenceCleaned rawText
  let cleaned2 : List Char :=
    match firstIdxOf lo cleaned1, lastIdxOf hi cleaned1 with
    | some f, some l => if f < l then (cleaned1.drop f).take (l + 1 - f) else cleaned1
    | _, _ => cleaned1
  commaClean cleaned2

/-- `extractAndParse` from `feed-generate.ts`: cleanup around the outermost
`{`/`}` pair, strict parse, one repaired retry, `none` (JS `null`) on failure. -/
def extractAndParse (rawText : List Char) : Option Json :=
  let cleaned := recoveryCleaned '{' '}' rawText
  match parseJson cleaned with
  | some v => some v
  | none => parseJson (commaClean cleaned)

/-- Maximum number of tweets kept by `parseTweets` (`MAX_TWEETS`). -/
def MAX_TWEETS : Nat := 10

/-- Shape check shared by both parse attempts in `parseTweets`: an array keeps
its string elements (capped), any other parsed value yields the empty list,
and a parse failure yields `none` (the thrown `SyntaxError`). -/
def tweetsOfParsed : Option Json → Option (List (List Char))
  | some (.arr es) =>
    some ((es.filterMap fun e => match e with | .str s => some s | _ => none).take MAX_TWEETS)
  | some _ => some []
  | none => none

/-- `parseTweets` from `home-tweets.ts`: cleanup around the outermost `[`/`]`
pair, strict parse, one repaired retry, empty list on failure. -/
def parseTweets (text : List Char) : List (List Char) :=
  let cleaned := recoveryCleaned '[' ']' text
  match tweetsOfParsed (parseJson cleaned) with
  | some r => r
  | none =>
    match tweetsOfParsed (parseJson (commaClean cleaned)) with
    | some r => r
    | none => []

/-! ### Lemmas for the Response Recovery Parser -/

/-- Trimming yields a sublist. -/
theorem jsTrim_sublist (l : List Char) : jsTrim l <+ l := by
  unfold jsTrim
  have h1 : (l.dropWhile isJsWsChar).reverse.dropWhile isJsWsChar <+
      (l.dropWhile isJsWsChar).reverse := List.dropWhile_sublist _
  exact (List.sublist_reverse_iff.mp h1).trans (List.dropWhile_sublist _)

/-- Stripping the leading fence yields a sublist. -/
theorem stripLeadFence_sublist (cs : List Char) : stripLeadFence cs <+ cs := by
  unfold stripLeadFence
  split
  · rename_i rest
    refine ((List.dropWhile_sublist _).trans ?_).trans
      (((List.sublist_cons_self _ _).trans (List.sublist_cons_self _ _)).trans
        (List.sublist_cons_self _ _))
    split
    · split
      · exact (((List.sublist_cons_self _ _).trans (List.sublist_cons_self _ _)).trans
          (List.sublist_cons_self _ _)).trans (List.sublist_cons_self _ _)
      · exact List.Sublist.refl _
    · exact List.Sublist.refl _
  · exact List.Sublist.refl _

/-- Stripping the trailing fence yields a sublist. -/
theorem stripTrailFence_sublist (cs : List Char) : stripTrailFence cs <+ cs := by
  unfold stripTrailFence
  split
  · rename_i rest heq
    have h1 : '`' :: '`' :: '`' :: rest <+ cs.reverse := by
      rw [← heq]; exact List.dropWhile_sublist _
    have h2 : rest <+ cs.reverse :=
      List.sublist_of_cons_sublist (List.sublist_of_cons_sublist
        (List.sublist_of_cons_sublist h1))
    exact List.sublist_reverse_iff.mp ((List.dropWhile_sublist _).trans h2)
  · exact List.Sublist.refl _

/-- The fence-cleanup stage yields a sublist of the raw text. -/
theorem fenceCleaned_sublist (s : List Char) : fenceCleaned s <+ s :=
  ((jsTrim_sublist _).trans ((stripTrailFence_sublist _).trans
    (stripLeadFence_sublist _))).trans (jsTrim_sublist s)

/-- Decomposition underlying `firstIdxOf`. -/
theorem firstIdxOf_eq_some {c : Char} :
    ∀ {cs : List Char} {i : Nat}, firstIdxOf c cs = some i →
      ∃ pre post, cs = pre ++ c :: post ∧ pre.length = i
  | [], i, h => by simp [firstIdxOf] at h
  | x :: xs, i, h => by
    unfold firstIdxOf at h
    by_cases hx : x = c
    · subst hx
      simp at h
      exact ⟨[], xs, by simp, by simp [h]⟩
    · rw [if_neg hx] at h
      match hfx : firstIdxOf c xs with
      | none => rw [hfx] at h; simp at h
      | some j =>
        rw [hfx] at h
        simp at h
        obtain ⟨pre, post, hdec, hlen⟩ := firstIdxOf_eq_some hfx
        exact ⟨x :: pre, post, by simp [hdec], by simp [hlen]; omega⟩

/-- Decomposition underlying `lastIdxOf`. -/
theorem lastIdxOf_eq_some {c : Char} {cs : List Char} {l : Nat}
    (h : lastIdxOf c cs = some l) :
    ∃ pre post, cs = pre ++ c :: post ∧ pre.length = l := by
  unfold lastIdxOf at h
  match hfx : firstIdxOf c cs.reverse with
  | none => rw [hfx] at h; simp at h
  | some k =>
    rw [hfx] at h
    simp at h
    obtain ⟨pre, post, hdec, hlen⟩ := firstIdxOf_eq_some hfx
    have hcs : cs = post.reverse ++ c :: pre.reverse := by
      have h2 := congrArg List.reverse hdec
      simpa [List.reverse_append] using h2
    refine ⟨post.reverse, pre.reverse, hcs, ?_⟩
    have hlen2 : cs.length = pre.length + post.length + 1 := by
      have h3 := congrArg List.length hdec
      simp at h3
      omega
    simp only [List.length_reverse]
    omega

/-- When the first index of `lo` lies strictly before the last index of `hi`,
the string contains a `lo`/`hi` pair in order. -/
theorem pair_sublist_of_idx {lo hi : Char} {t : List Char} {f l : Nat}
    (hf : firstIdxOf lo t = some f) (hl : lastIdxOf hi t = some l) (hfl : f < l) :
    [lo, hi] <+ t := by
  obtain ⟨a, b, hab, ha⟩ := firstIdxOf_eq_some hf
  obtain ⟨u, v, huv, hu⟩ := lastIdxOf_eq_some hl
  have hdropf : t.drop (f + 1) = b := by
    rw [hab, ← ha]
    have h0 : ((a ++ [lo]) ++ b).drop (a ++ [lo]).length = b := List.drop_left _ _
    simp only [List.append_assoc, List.singleton_append, List.length_append,
      List.length_cons, List.length_nil, Nat.zero_add] at h0
    exact h0
  have hdropl : t.drop l = hi :: v := by
    rw [huv, ← hu]
    exact List.drop_left _ _
  have hmem : hi ∈ b := by
    have hd : b.drop (l - f - 1) = hi :: v := by
      rw [← hdropf, List.drop_drop, show f + 1 + (l - f - 1) = l from by omega, hdropl]
    exact (List.drop_sublist _ _).subset (hd ▸ List.mem_cons_self _ _)
  rw [hab]
  exact ((List.cons_sublist_cons.mpr (List.singleton_sublist.mpr hmem)).trans
    (List.sublist_append_right a (lo :: b)))

/-- Without a `lo`/`hi` pair the delimiter-slicing step of the recovery cleanup
does nothing, so the cleaned text is just the comma-cleaned fence-stripped text. -/
theorem recoveryCleaned_of_no_pair {lo hi : Char} {s : List Char}
    (h : ¬ ([lo, hi] <+ s)) :
    recoveryCleaned lo hi s = commaClean (fenceCleaned s) := by
  have ht : ¬ ([lo, hi] <+ fenceCleaned s) := fun hc => h (hc.trans (fenceCleaned_sublist s))
  unfold recoveryCleaned
  cases hfx : firstIdxOf lo (fenceCleaned s) with
  | none => simp [hfx]
  | some f =>
    cases hlx : lastIdxOf hi (fenceCleaned s) with
    | none => simp [hfx, hlx]
    | some l =>
      simp only [hfx, hlx]
      rw [if_neg]
      intro hfl
      exact ht (pair_sublist_of_idx hfx hlx hfl)

/-- Claim C1. The Response Recovery Parser is total (both functions are plain
Lean functions, hence never raise), and on any input with no `{`/`}` pair
(respectively no `[`/`]` pair) whose cleaned text does not parse as JSON on
either the strict or the repaired pass, `extractAndParse` returns `none` (the
JS `null`) and `parseTweets` returns the empty list. -/
theorem recoveryParser_empty_on_garbage (s : List Char)
    (hp1 : parseJson (commaClean (fenceCleaned s)) = none)
    (hp2 : parseJson (commaClean (commaClean (fenceCleaned s))) = none) :
    (¬ ([('{' : Char), '}'] <+ s) → extractAndParse s = none) ∧
    (¬ ([('[' : Char), ']'] <+ s) → parseTweets s = []) := by
  constructor
  · intro hobj
    unfold extractAndParse
    rw [recoveryCleaned_of_no_pair hobj]
    dsimp only
    rw [hp1, hp2]
  · intro harr
    unfold parseTweets
    rw [recoveryCleaned_of_no_pair harr]
    dsimp only
    rw [hp1, hp2]
    rfl

/-- Witness for C1 at the concrete input `"hello world"`. -/
theorem recoveryParser_empty_on_garbage_witness :
    extractAndParse "hello world".data = none ∧ parseTweets "hello world".data = [] :=
  ⟨(recoveryParser_empty_on_garbage "hello world".data rfl rfl).1
      (fun hc => absurd (hc.subset (List.mem_cons_self _ _)) (by decide)),
   (recoveryParser_empty_on_garbage "hello world".data rfl rfl).2
      (fun hc => absurd (hc.subset (List.mem_cons_self _ _)) (by decide))⟩

/-- Claim C2. On the exact raw text `"Here you go:"`, newline, a ```` ```json ````
fenced block containing the object with a trailing comma, newline,
`"Hope that helps!"`, the recovery parser returns exactly the object
`{"threads":[{"main":"A","replies":["B","C"]}]}`. -/
theorem extractAndParse_recovers_fenced_object :
    extractAndParse
      "Here you go:\n```json\n\x7b\"threads\":[\x7b\"main\":\"A\",\"replies\":[\"B\",\"C\"]\x7d],\x7d\n```\nHope that helps!".data =
    some (Json.obj [("threads".data,
      Json.arr [Json.obj [("main".data, Json.str "A".data),
                          ("replies".data, Json.arr [Json.str "B".data, Json.str "C".data])]])]) := by
  rfl

/-! ### Thread replies and the follow-up splice

Embeds the `replies` column shape (`string | {type, content}`) and the
splice in the thread-ask handler (`netlify/functions/interests.ts` and the
thread-ask edge function): `insertAt = replyIndex === null ? replies.length :
replyIndex + 1`, then `[...slice(0, insertAt), {type:'user',...},
{type:'ai',...}, ...slice(insertAt)]`. -/

/-- One element of a thread's `replies` column: a plain generated string or a
tagged `{type, content}` record. -/
inductive ReplyItem where
  | str (s : List Char)
  | tagged (type content : List Char)
deriving DecidableEq

/-- The splice performed by the thread-ask handler on the `replies` list. -/
def spliceReplies (repliesRaw : List ReplyItem) (replyIndex : Option Nat)
    (q a : List Char) : List ReplyItem :=
  let insertAt := match replyIndex with | none => repliesRaw.length | some i => i + 1
  repliesRaw.take insertAt ++
    ReplyItem.tagged "user".data q :: ReplyItem.tagged "ai".data a ::
      repliesRaw.drop insertAt

/-- The new `replies` value written by the thread-ask handler: the question is
stored as `sanitizeForDb(rawQuestion, 2000)` and the answer as
`sanitizeForDb(answer, 8000)`. -/
def threadAskNewReplies (repliesRaw : List ReplyItem) (replyIndex : Option Nat)
    (rawQuestion answer : List Char) : List ReplyItem :=
  spliceReplies repliesRaw replyIndex (sanitizeForDb rawQuestion 2000)
    (sanitizeForDb answer 8000)

/-- Claim C3. On a thread with 5 string replies, a follow-up with
`replyIndex = 1` and a successful (length ≥ 2) answer produces the 7-element
list with the `{user}` record at index 2 immediately followed by the `{ai}`
record at index 3, originals 0-1 in place and originals 2-4 shifted to 4-6 in
order; in general the pair is spliced immediately after the given reply index,
or appended at the end when no index is given. -/
theorem threadAsk_splices_pair (s0 s1 s2 s3 s4 rawQ ans : List Char)
    (_hans : 2 ≤ ans.length) :
    (threadAskNewReplies
        [ReplyItem.str s0, .str s1, .str s2, .str s3, .str s4] (some 1) rawQ ans =
      [ReplyItem.str s0, .str s1,
       .tagged "user".data (sanitizeForDb rawQ 2000),
       .tagged "ai".data (sanitizeForDb ans 8000),
       .str s2, .str s3, .str s4]) ∧
    (threadAskNewReplies
        [ReplyItem.str s0, .str s1, .str s2, .str s3, .str s4] (some 1) rawQ ans).length = 7 ∧
    (∀ (rs : List ReplyItem) (q a : List Char),
      threadAskNewReplies rs none q a =
        rs ++ [ReplyItem.tagged "user".data (sanitizeForDb q 2000),
               ReplyItem.tagged "ai".data (sanitizeForDb a 8000)]) ∧
    (∀ (rs : List ReplyItem) (i : Nat) (q a : List Char),
      threadAskNewReplies rs (some i) q a =
        rs.take (i + 1) ++
          ReplyItem.tagged "user".data (sanitizeForDb q 2000) ::
            ReplyItem.tagged "ai".data (sanitizeForDb a 8000) :: rs.drop (i + 1)) := by
  refine ⟨rfl, rfl, ?_, fun rs i q a => rfl⟩
  intro rs q a
  unfold threadAskNewReplies spliceReplies
  simp

/-- Witness for C3 at concrete reply and question strings. -/
theorem threadAsk_splices_pair_witness :
    threadAskNewReplies
        [ReplyItem.str "r0".data, .str "r1".data, .str "r2".data, .str "r3".data,
         .str "r4".data] (some 1) "Why?".data "Because so.".data =
      [ReplyItem.str "r0".data, .str "r1".data,
       .tagged "user".data (sanitizeForDb "Why?".data 2000),
       .tagged "ai".data (sanitizeForDb "Because so.".data 8000),
       .str "r2".data, .str "r3".data, .str "r4".data] :=
  (threadAsk_splices_pair "r0".data "r1".data "r2".data "r3".data "r4".data
    "Why?".data "Because so.".data (by decide)).1

/-! ### Grounding classifier

Embeds `classifyNeedsWebGrounding` (shared edge library and the serverless
`_shared` copy): the outcome of the wrapped completion call is passed in as an
`Except` value; the `catch` branch of the source corresponds to `.error`. -/

/-- JavaScript `toUpperCase` restricted to the Basic Latin range (the classifier
compares against the ASCII literal `"YES"`). -/
def jsToUpperChar (c : Char) : Char :=
  if 'a' ≤ c ∧ c ≤ 'z' then Char.ofNat (c.toNat - 32) else c

/-- Uppercase a JS string. -/
def jsToUpper (cs : List Char) : List Char := cs.map jsToUpperChar

/-- `String.prototype.startsWith`: does `s` begin with `pat`? -/
def leadsWith : List Char → List Char → Bool
  | [], _ => true
  | _ :: _, [] => false
  | p :: ps, c :: cs => p = c && leadsWith ps cs

/-- `classifyNeedsWebGrounding`: on a successful completion the reply is
trimmed, upper-cased and tested for the prefix `"YES"`; any exception from the
completion call is caught and yields `false`. -/
def classifyNeedsWebGrounding (completion : Except (List Char) (List Char)) : Bool :=
  match completion with
  | .error _ => false
  | .ok content => leadsWith "YES".data (jsToUpper (jsTrim content))

/-- Claim C4. `classifyNeedsWebGrounding` returns true iff the completion call
succeeds and its trimmed, upper-cased reply starts with `"YES"`; every failed
call yields false (the exception is caught, never propagated — the function is
total); the reply `"YES, because..."` yields true by prefix match, as does a
lowercase `"yes"` reply. -/
theorem classifyNeedsWebGrounding_spec :
    (∀ r : Except (List Char) (List Char),
      classifyNeedsWebGrounding r = true ↔
        ∃ content, r = .ok content ∧
          leadsWith "YES".data (jsToUpper (jsTrim content)) = true) ∧
    (∀ e, classifyNeedsWebGrounding (.error e) = false) ∧
    classifyNeedsWebGrounding (.ok "YES, because...".data) = true ∧
    classifyNeedsWebGrounding (.ok "  yes, with recent data  ".data) = true ∧
    classifyNeedsWebGrounding (.ok "No.".data) = false := by
  refine ⟨?_, fun e => rfl, by decide, by decide, by decide⟩
  intro r
  cases r with
  | error e => simp [classifyNeedsWebGrounding]
  | ok content =>
    simp only [classifyNeedsWebGrounding]
    constructor
    · intro h; exact ⟨content, rfl, h⟩
    · rintro ⟨c2, hc2, h⟩
      cases hc2
      exact h

/-! ### Stored home suggestions

Embeds the two writers of the `user_home_suggestions` row: the home-tweets
handler (`merged = Array.from(new Set([...storedSuggestions, ...newTweets]
.filter(Boolean)))` then upsert) and the interests POST handler (upsert with
`suggestions: []`). -/

/-- JavaScript `Array.from(new Set(xs))`: first-occurrence deduplication in
insertion order. -/
def jsSetFrom (xs : List (List Char)) : List (List Char) :=
  xs.foldl (fun acc x => if x ∈ acc then acc else acc ++ [x]) []

/-- The merge in the home-tweets handler: concatenate stored suggestions and
newly parsed tweets, drop falsy (empty) strings, deduplicate. -/
def mergeSuggestions (stored newTweets : List (List Char)) : List (List Char) :=
  jsSetFrom ((stored ++ newTweets).filter (fun s => decide (s ≠ [])))

/-- The operations that write the `suggestions` column. -/
inductive SuggestionsOp where
  | homeTweetsGenerate (newTweets : List (List Char))
  | interestsEdit (tags : List (List Char))

/-- Effect of each writer on the stored suggestions list. -/
def stepSuggestions (stored : List (List Char)) : SuggestionsOp → List (List Char)
  | .homeTweetsGenerate newTweets => mergeSuggestions stored newTweets
  | .interestsEdit _ => []

/-- Membership in the set-fold: an element is in the result iff it was in the
accumulator or in the remaining input. -/
theorem mem_jsSetFrom_aux (x : List Char) :
    ∀ (xs acc : List (List Char)),
      (x ∈ xs.foldl (fun acc y => if y ∈ acc then acc else acc ++ [y]) acc ↔
        x ∈ acc ∨ x ∈ xs)
  | [], acc => by simp
  | y :: xs, acc => by
    simp only [List.foldl_cons]
    rw [mem_jsSetFrom_aux x xs]
    by_cases hy : y ∈ acc
    · rw [if_pos hy]
      simp only [List.mem_cons]
      constructor
      · rintro (h | h)
        · exact Or.inl h
        · exact Or.inr (Or.inr h)
      · rintro (h | h | h)
        · exact Or.inl h
        · exact Or.inl (h ▸ hy)
        · exact Or.inr h
    · rw [if_neg hy]
      simp only [List.mem_append, List.mem_singleton, List.mem_cons]
      tauto

/-- The set-fold yields a duplicate-free list. -/
theorem nodup_jsSetFrom_aux :
    ∀ (xs acc : List (List Char)), acc.Nodup →
      (xs.foldl (fun acc y => if y ∈ acc then acc else acc ++ [y]) acc).Nodup
  | [], _, h => h
  | y :: xs, acc, h => by
    simp only [List.foldl_cons]
    by_cases hy : y ∈ acc
    · rw [if_pos hy]
      exact nodup_jsSetFrom_aux xs acc h
    · rw [if_neg hy]
      refine nodup_jsSetFrom_aux xs _ ?_
      simp [List.nodup_append, h, hy]

/-- Claim C7. After a home-tweets generation the stored list keeps every
previously stored non-empty suggestion and adds every non-empty new tweet,
contains only elements drawn from those two sources, and has no duplicates —
so it never shrinks as a set; the interests edit is the operation that resets
it to the empty list. -/
theorem homeSuggestions_grow_only (stored newTweets : List (List Char)) :
    (∀ s ∈ stored, s ≠ [] → s ∈ stepSuggestions stored (.homeTweetsGenerate newTweets)) ∧
    (∀ t ∈ newTweets, t ≠ [] → t ∈ stepSuggestions stored (.homeTweetsGenerate newTweets)) ∧
    (∀ x ∈ stepSuggestions stored (.homeTweetsGenerate newTweets),
      (x ∈ stored ∨ x ∈ newTweets) ∧ x ≠ []) ∧
    (stepSuggestions stored (.homeTweetsGenerate newTweets)).Nodup ∧
    (∀ tags, stepSuggestions stored (.interestsEdit tags) = []) := by
  have hmem : ∀ x, x ∈ mergeSuggestions stored newTweets ↔
      (x ∈ stored ∨ x ∈ newTweets) ∧ x ≠ [] := by
    intro x
    unfold mergeSuggestions jsSetFrom
    rw [mem_jsSetFrom_aux]
    simp only [List.mem_nil_iff, false_or, List.mem_filter, List.mem_append,
      decide_eq_true_eq]
  refine ⟨?_, ?_, ?_, ?_, fun _ => rfl⟩
  · intro s hs hne
    exact (hmem s).mpr ⟨Or.inl hs, hne⟩
  · intro t ht hne
    exact (hmem t).mpr ⟨Or.inr ht, hne⟩
  · intro x hx
    exact (hmem x).mp hx
  · exact nodup_jsSetFrom_aux _ [] List.nodup_nil

/-- Witness for C7 at concrete lists. -/
theorem homeSuggestions_grow_only_witness :
    "old".data ∈ stepSuggestions ["old".data] (.homeTweetsGenerate ["new".data, "old".data]) :=
  (homeSuggestions_grow_only ["old".data] ["new".data, "old".data]).1
    "old".data (by decide) (by decide)

/-! ### The client fetch helpers

Embeds `generateFeed` from `src/lib/api.ts` and the generic `apiFetch` helper
of the api client: both run a single `fetch`, parse the JSON body, and throw
the body's `error` string when the response is not ok.  The sequence of
would-be attempt outcomes is passed as a function of the attempt number; the
embedded code only ever consults attempt `0`. -/

/-- Outcome of one `fetch` + `res.json()`: the `ok` flag and the parsed body. -/
structure FetchResult where
  ok : Bool
  body : Json

/-- The `generateFeed` client helper: one fetch, no retry; a non-ok response is
thrown as an error (`.error`), a successful one returns the parsed body. -/
def generateFeedFetch (attempts : Nat → FetchResult) : Except Unit Json :=
  let res := attempts 0
  if res.ok then .ok res.body else .error ()

/-- The generic `apiFetch` client helper: identical single-attempt shape. -/
def apiFetchOnce (attempts : Nat → FetchResult) : Except Unit Json :=
  let res := attempts 0
  if res.ok then .ok res.body else .error ()

/-- Modelled from the spec (§5): the claimed client wrapper that performs
exactly one blind retry after a fixed delay — on a failed first attempt it
returns the outcome of the second attempt.  No such wrapper exists in the
repository source; this definition follows the spec's words for comparison. -/
def specRetryOnce (attempts : Nat → FetchResult) : Except Unit Json :=
  let first := attempts 0
  if first.ok then .ok first.body
  else
    let second := attempts 1
    if second.ok then .ok second.body else .error ()

/-- Counterexample to claim C8 as stated: when the first attempt fails and the
second would succeed, the actual client helpers surface the failure, while the
claimed retry-once client would succeed — the client performs no retry. -/
theorem client_no_retry_counterexample :
    generateFeedFetch
        (fun i => if i = 0 then ⟨false, Json.null⟩ else ⟨true, Json.str "ok".data⟩) =
      .error () ∧
    apiFetchOnce
        (fun i => if i = 0 then ⟨false, Json.null⟩ else ⟨true, Json.str "ok".data⟩) =
      .error () ∧
    specRetryOnce
        (fun i => if i = 0 then ⟨false, Json.null⟩ else ⟨true, Json.str "ok".data⟩) =
      .ok (Json.str "ok".data) ∧
    generateFeedFetch
        (fun i => if i = 0 then ⟨false, Json.null⟩ else ⟨true, Json.str "ok".data⟩) ≠
      specRetryOnce
        (fun i => if i = 0 then ⟨false, Json.null⟩ else ⟨true, Json.str "ok".data⟩) := by
  refine ⟨rfl, rfl, rfl, ?_⟩
  intro h
  rw [show generateFeedFetch
        (fun i => if i = 0 then ⟨false, Json.null⟩ else ⟨true, Json.str "ok".data⟩) =
      Except.error () from rfl,
    show specRetryOnce
        (fun i => if i = 0 then ⟨false, Json.null⟩ else ⟨true, Json.str "ok".data⟩) =
      Except.ok (Json.str "ok".data) from rfl] at h
  exact Except.noConfusion h

/-- Amended claim C8: the repository's client code applies no retry at all —
each AI-pipeline entrypoint helper performs exactly one fetch attempt, so its
result is determined by the first attempt alone: a successful first attempt
returns its body and a failed one surfaces an error, regardless of what any
further attempt would return. -/
theorem client_single_attempt (attempts attempts2 : Nat → FetchResult)
    (hsame : attempts 0 = attempts2 0) :
    generateFeedFetch attempts = generateFeedFetch attempts2 ∧
    apiFetchOnce attempts = apiFetchOnce attempts2 ∧
    (∀ a : Nat → FetchResult, (a 0).ok = true → generateFeedFetch a = .ok (a 0).body) ∧
    (∀ a : Nat → FetchResult, (a 0).ok = false → generateFeedFetch a = .error ()) ∧
    (∀ a : Nat → FetchResult, (a 0).ok = true → apiFetchOnce a = .ok (a 0).body) ∧
    (∀ a : Nat → FetchResult, (a 0).ok = false → apiFetchOnce a = .error ()) := by
  refine ⟨?_, ?_, ?_, ?_, ?_, ?_⟩
  · unfold generateFeedFetch; rw [hsame]
  · unfold apiFetchOnce; rw [hsame]
  · intro a ha; simp [generateFeedFetch, ha]
  · intro a ha; simp [generateFeedFetch, ha]
  · intro a ha; simp [apiFetchOnce, ha]
  · intro a ha; simp [apiFetchOnce, ha]

/-- Witness for the amended C8 at a concrete attempt stream. -/
theorem client_single_attempt_witness :
    generateFeedFetch (fun _ => ⟨true, Json.str "fine".data⟩) =
      .ok (Json.str "fine".data) :=
  ((client_single_attempt (fun _ => ⟨true, Json.str "fine".data⟩)
    (fun _ => ⟨true, Json.str "fine".data⟩) rfl).2.2.1)
    (fun _ => ⟨true, Json.str "fine".data⟩) rfl

/-! ### Caller identity: `getUserId`

Embeds `getUserId`, `getTokenFromCookie` and `parseJwtPayload` from
`netlify/edge-functions/lib/shared.ts`: the bearer token (or the `session`
cookie value) has its second dot-separated segment base64-decoded (`atob`) and
`JSON.parse`d, with no signature verification anywhere; every failure is
caught and yields JS `null` (`none`). -/

/-- An incoming request, reduced to the two headers `getUserId` reads. -/
structure RequestModel where
  authorization : Option (List Char)
  cookie : Option (List Char)

/-- JavaScript `String.prototype.split(sep)` for a single-character separator:
splits on every occurrence, keeping empty segments. -/
def jsSplit (sep : Char) : List Char → List (List Char)
  | [] => [[]]
  | c :: rest =>
    if c = sep then [] :: jsSplit sep rest
    else
      match jsSplit sep rest with
      | s :: ss => (c :: s) :: ss
      | [] => [[c]]

/-- Scan for the regex `session=([^;]+)`: at each position, if the literal
`session=` matches and at least one non-`;` character follows, capture the
maximal run; otherwise continue scanning (as the regex engine does). -/
def findSessionValue : List Char → Option (List Char)
  | [] => none
  | c :: rest =>
    if leadsWith "session=".data (c :: rest) then
      let v := ((c :: rest).drop 8).takeWhile (fun ch => decide (ch ≠ ';'))
      if v = [] then findSessionValue rest else some v
    else findSessionValue rest

/-- `getTokenFromCookie`: match the `session` cookie, trim its value, and treat
an empty result as absent. -/
def getTokenFromCookie (req : RequestModel) : Option (List Char) :=
  match req.cookie with
  | none => none
  | some cookieStr =>
    match findSessionValue cookieStr with
    | none => none
    | some v =>
      let t := jsTrim v
      if t = [] then none else some t

/-- ASCII whitespace removed by forgiving-base64 (`atob`): TAB, LF, FF, CR, space. -/
def isB64Ws (c : Char) : Bool :=
  c = '\t' || c = '\n' || c.val == 0x0c || c = '\r' || c = ' '

/-- Value of one standard base64 alphabet character. -/
def base64Val (c : Char) : Option Nat :=
  if 'A' ≤ c ∧ c ≤ 'Z' then some (c.toNat - 'A'.toNat)
  else if 'a' ≤ c ∧ c ≤ 'z' then some (c.toNat - 'a'.toNat + 26)
  else if '0' ≤ c ∧ c ≤ '9' then some (c.toNat - '0'.toNat + 52)
  else if c = '+' then some 62
  else if c = '/' then some 63
  else none

/-- Decode whitespace- and padding-stripped base64 in groups of four characters
(with two- and three-character tails), yielding latin-1 byte characters. -/
def base64Groups : List Char → Option (List Char)
  | [] => some []
  | [_] => none
  | [a, b] => do
    let va ← base64Val a
    let vb ← base64Val b
    return [Char.ofNat (va * 4 + vb / 16)]
  | [a, b, c] => do
    let va ← base64Val a
    let vb ← base64Val b
    let vc ← base64Val c
    return [Char.ofNat (va * 4 + vb / 16), Char.ofNat (vb % 16 * 16 + vc / 4)]
  | a :: b :: c :: d :: rest => do
    let va ← base64Val a
    let vb ← base64Val b
    let vc ← base64Val c
    let vd ← base64Val d
    let tail ← base64Groups rest
    return Char.ofNat (va * 4 + vb / 16) :: Char.ofNat (vb % 16 * 16 + vc / 4) ::
      Char.ofNat (vc % 4 * 64 + vd) :: tail

/-- Strip one or two trailing `=` padding characters. -/
def stripB64Pad (cs : List Char) : List Char :=
  match cs.reverse with
  | '=' :: '=' :: r => r.reverse
  | '=' :: r => r.reverse
  | _ => cs

/-- The `atob` builtin (WHATWG forgiving-base64 decode): strip ASCII whitespace,
strip padding when the length is a multiple of four, reject length-mod-4 = 1
and non-alphabet characters, decode to latin-1 characters; `none` models the
thrown `InvalidCharacterError`. -/
def atob (input : List Char) : Option (List Char) :=
  let data := input.filter (fun c => !isB64Ws c)
  let data2 := if data.length % 4 == 0 then stripB64Pad data else data
  if data2.length % 4 == 1 then none else base64Groups data2

/-- Last-binding lookup in a parsed JSON object, as JavaScript keeps the last
of duplicate keys from `JSON.parse`. -/
def lookupLast (key : List Char) (ms : List (List Char × Json)) : Option Json :=
  ms.foldl (fun acc kv => if kv.1 = key then some kv.2 else acc) none

/-- `parseJwtPayload(token)`: `JSON.parse(atob(token.split(".")[1]))` inside a
try/catch, then the truthy-object check `payload && typeof payload === "object"`
(JS arrays are objects; `null`, strings, numbers and booleans are rejected). -/
def parseJwtPayload (token : List Char) : Option Json :=
  match (jsSplit '.' token).get? 1 with
  | none => none
  | some seg =>
    match atob seg with
    | none => none
    | some decoded =>
      match parseJson decoded with
      | none => none
      | some j =>
        match j with
        | .obj ms => some (.obj ms)
        | .arr es => some (.arr es)
        | _ => none

/-- The `sub` property of the decoded payload (`payload?.sub ?? null`): a field
lookup on objects, absent on arrays. -/
def jwtSub : Json → Option Json
  | .obj ms => lookupLast "sub".data ms
  | _ => none

/-- The token `getUserId` works from: the bearer token when the authorization
header starts with `"Bearer "`, otherwise the session cookie; an empty token is
falsy and treated as absent. -/
def requestToken (req : RequestModel) : Option (List Char) :=
  let raw : Option (List Char) :=
    match req.authorization with
    | some auth =>
      if leadsWith "Bearer ".data auth then some (auth.drop 7) else getTokenFromCookie req
    | none => getTokenFromCookie req
  match raw with
  | some t => if t = [] then none else some t
  | none => none

/-- `getUserId(req)`: decode the token payload and return its `sub` (any JSON
value), or `none` (JS `null`) on any failure; no signature is ever verified. -/
def getUserId (req : RequestModel) : Option Json :=
  match requestToken req with
  | none => none
  | some t =>
    match parseJwtPayload t with
    | none => none
    | some payload => jwtSub payload

/-- Claim C9. `getUserId` derives the identity purely by decoding: whenever the
request yields a token whose second dot-separated segment base64-decodes to a
JSON object, the result is exactly that object's `sub` field (`none` when the
field is absent); whenever the payload fails to decode to a truthy object, the
result is `none`; and with no token at all the result is `none`.  The function
is total (every failure path is a caught exception modelled by `none`) and
performs no signature verification — it never inspects anything beyond the
payload segment. -/
theorem getUserId_decodes_sub (req : RequestModel) (tok : List Char)
    (htok : requestToken req = some tok) :
    (∀ seg decoded fs,
      (jsSplit '.' tok).get? 1 = some seg →
      atob seg = some decoded →
      parseJson decoded = some (Json.obj fs) →
      getUserId req = lookupLast "sub".data fs) ∧
    (parseJwtPayload tok = none → getUserId req = none) ∧
    (∀ req2 : RequestModel, requestToken req2 = none → getUserId req2 = none) := by
  refine ⟨?_, ?_, ?_⟩
  · intro seg decoded fs hseg hdec hjson
    unfold getUserId
    rw [htok]
    dsimp only
    unfold parseJwtPayload
    simp only [hseg, hdec, hjson]
    rfl
  · intro hfail
    unfold getUserId
    rw [htok]
    dsimp only
    rw [hfail]
  · intro req2 hnone
    unfold getUserId
    rw [hnone]

/-- Witness for C9 at a concrete bearer token whose payload is
`\x7b"sub":"u1"\x7d` (base64 `eyJzdWIiOiJ1MSJ9`). -/
theorem getUserId_decodes_sub_witness :
    getUserId ⟨some "Bearer x.eyJzdWIiOiJ1MSJ9.y".data, none⟩ =
      lookupLast "sub".data [("sub".data, Json.str "u1".data)] :=
  (getUserId_decodes_sub ⟨some "Bearer x.eyJzdWIiOiJ1MSJ9.y".data, none⟩
      "x.eyJzdWIiOiJ1MSJ9.y".data rfl).1
    "eyJzdWIiOiJ1MSJ9".data "\x7b\"sub\":\"u1\"\x7d".data
    [("sub".data, Json.str "u1".data)] rfl rfl rfl

/-! ### The thread-get endpoint

Embeds the handler in `netlify/edge-functions/thread-get.ts`: OPTIONS → 204,
non-GET → 405, invalid UUID → 400, missing env → 500, thread not found → 404;
then the ownership check runs only when `getUserId(req)` is truthy — an
unauthenticated (or unresolvable) caller is served the thread directly. -/

/-- Hexadecimal digit (either case), for the UUID regex. -/
def isHexChar (c : Char) : Bool :=
  isDigitChar c || ('a' ≤ c && c ≤ 'f') || ('A' ≤ c && c ≤ 'F')

/-- The `UUID_REGEX` test from `lib/shared.ts` (case-insensitive):
`^[0-9a-f]\x7b8\x7d-[0-9a-f]\x7b4\x7d-[1-5][0-9a-f]\x7b3\x7d-[89ab][0-9a-f]\x7b3\x7d-[0-9a-f]\x7b12\x7d$`. -/
def validateUuid (s : List Char) : Bool :=
  match jsSplit '-' s with
  | [a, b, c, d, e] =>
    a.length == 8 && a.all isHexChar &&
    b.length == 4 && b.all isHexChar &&
    (match c with
     | c1 :: cr => ('1' ≤ c1 && c1 ≤ '5') && cr.length == 3 && cr.all isHexChar
     | [] => false) &&
    (match d with
     | d1 :: dr =>
       (d1 = '8' || d1 = '9' || d1 = 'a' || d1 = 'b' || d1 = 'A' || d1 = 'B') &&
       dr.length == 3 && dr.all isHexChar
     | [] => false) &&
    e.length == 12 && e.all isHexChar
  | _ => false

/-- A row of the `threads` table as selected by the handler. -/
structure ThreadRow where
  id : List Char
  topic_id : List Char
  main_post : List Char
  replies : Option (List ReplyItem)
  created_at : List Char

/-- A row of the `topics` table as selected by the ownership check. -/
structure TopicRow where
  id : List Char
  user_id : List Char

/-- JavaScript truthiness of a JSON value (a numeric lexeme is falsy exactly
when it denotes zero, i.e. has no nonzero digit). -/
def jsTruthyValue : Json → Bool
  | .null => false
  | .bool b => b
  | .num lex => lex.any (fun c => '1' ≤ c && c ≤ '9')
  | .str s => !s.isEmpty
  | .arr _ => true
  | .obj _ => true

/-- Truthiness of `getUserId`: JS `null` (`none`) is falsy. -/
def jsTruthyOpt : Option Json → Bool
  | none => false
  | some j => jsTruthyValue j

/-- JavaScript strict equality between a database string and the decoded `sub`
value: true only when the latter is the same string. -/
def jsStrictEqStrOpt (s : List Char) : Option Json → Bool
  | some (.str t) => s == t
  | _ => false

/-- The thread body returned on success (`replies ?? []`). -/
structure ThreadGetOk where
  id : List Char
  topic_id : List Char
  main_post : List Char
  replies : List ReplyItem
  created_at : List Char
deriving DecidableEq

/-- Observable outcome of the thread-get handler. -/
inductive ThreadGetResult where
  | noContent
  | error (status : Nat)
  | ok (thread : ThreadGetOk)
deriving DecidableEq

/-- The thread-get handler, with the two table lookups passed in as functions
of the queried key. -/
def threadGetHandler (method : List Char) (queryThreadId : Option (List Char))
    (envOk : Bool) (findThread : List Char → Option ThreadRow)
    (findTopic : List Char → Option TopicRow) (req : RequestModel) :
    ThreadGetResult :=
  if method = "OPTIONS".data then .noContent
  else if method ≠ "GET".data then .error 405
  else
    match queryThreadId with
    | none => .error 400
    | some tid =>
      if !validateUuid tid then .error 400
      else if !envOk then .error 500
      else
        match findThread tid with
        | none => .error 404
        | some thread =>
          let userId := getUserId req
          if jsTruthyOpt userId then
            match findTopic thread.topic_id with
            | none => .error 403
            | some topic =>
              if !jsStrictEqStrOpt topic.user_id userId then .error 403
              else
                .ok ⟨thread.id, thread.topic_id, thread.main_post,
                  thread.replies.getD [], thread.created_at⟩
          else
            .ok ⟨thread.id, thread.topic_id, thread.main_post,
              thread.replies.getD [], thread.created_at⟩

/-- Claim C10. For a GET with a valid thread id that exists: a caller with no
truthy resolvable identity is served the thread with status 200 and the
ownership check is skipped entirely (the topic lookup is irrelevant); the 403
ownership check applies only to a truthy resolvable identity — a non-owner (or
missing topic) gets 403 and the owner gets the thread. -/
theorem threadGet_serves_unauthenticated (tid : List Char) (envOk : Bool)
    (findThread : List Char → Option ThreadRow)
    (findTopic : List Char → Option TopicRow) (thread : ThreadRow)
    (hvalid : validateUuid tid = true)
    (henv : envOk = true)
    (hfound : findThread tid = some thread) :
    (∀ req : RequestModel, jsTruthyOpt (getUserId req) = false →
      threadGetHandler "GET".data (some tid) envOk findThread findTopic req =
        .ok ⟨thread.id, thread.topic_id, thread.main_post,
          thread.replies.getD [], thread.created_at⟩) ∧
    (∀ req : RequestModel, jsTruthyOpt (getUserId req) = true →
      findTopic thread.topic_id = none →
      threadGetHandler "GET".data (some tid) envOk findThread findTopic req =
        .error 403) ∧
    (∀ (req : RequestModel) (topic : TopicRow),
      jsTruthyOpt (getUserId req) = true →
      findTopic thread.topic_id = some topic →
      jsStrictEqStrOpt topic.user_id (getUserId req) = false →
      threadGetHandler "GET".data (some tid) envOk findThread findTopic req =
        .error 403) ∧
    (∀ (req : RequestModel) (topic : TopicRow),
      jsTruthyOpt (getUserId req) = true →
      findTopic thread.topic_id = some topic →
      jsStrictEqStrOpt topic.user_id (getUserId req) = true →
      threadGetHandler "GET".data (some tid) envOk findThread findTopic req =
        .ok ⟨thread.id, thread.topic_id, thread.main_post,
          thread.replies.getD [], thread.created_at⟩) := by
  subst henv
  refine ⟨?_, ?_, ?_, ?_⟩
  · intro req hanon
    simp [threadGetHandler, hvalid, hfound, hanon]
  · intro req hauth htopic
    simp [threadGetHandler, hvalid, hfound, hauth, htopic]
  · intro req topic hauth htopic hneq
    simp [threadGetHandler, hvalid, hfound, hauth, htopic, hneq]
  · intro req topic hauth htopic heq
    simp [threadGetHandler, hvalid, hfound, hauth, htopic, heq]

/-- Witness for C10: a concrete anonymous request (no authorization header, no
cookie) is served the stored thread. -/
theorem threadGet_serves_unauthenticated_witness :
    threadGetHandler "GET".data (some "123e4567-e89b-12d3-a456-426614174000".data) true
      (fun _ => some ⟨"123e4567-e89b-12d3-a456-426614174000".data, "topic-1".data,
        "hello".data, none, "2024-01-01".data⟩)
      (fun _ => none) ⟨none, none⟩ =
    .ok ⟨"123e4567-e89b-12d3-a456-426614174000".data, "topic-1".data,
      "hello".data, [], "2024-01-01".data⟩ :=
  (threadGet_serves_unauthenticated "123e4567-e89b-12d3-a456-426614174000".data true
    (fun _ => some ⟨"123e4567-e89b-12d3-a456-426614174000".data, "topic-1".data,
      "hello".data, none, "2024-01-01".data⟩)
    (fun _ => none)
    ⟨"123e4567-e89b-12d3-a456-426614174000".data, "topic-1".data,
      "hello".data, none, "2024-01-01".data⟩
    (by decide) rfl rfl).1 ⟨none, none⟩ rfl

end DeepLearn
